import Mathlib

/-!
Shallow embedding of the data-cleaning pipeline of `src/Streamapp.py`
(the Wuzzuf jobs Streamlit dashboard).

Python strings are modelled as `List Char`; pandas cell values as `Cell`
(Python `None`, float NaN, a string, or a list of strings); a raised
Python exception as `Except PyErr`.  Each definition is translated from
the source function it names; line numbers refer to `src/Streamapp.py`.
-/

set_option autoImplicit false

/-- ASCII whitespace characters removed by Python `str.strip()`. -/
def pySpaceChars : List Char := [' ', '\t', '\n', '\r', '\x0b', '\x0c']

/-- Python `c.isspace()` over the ASCII range. -/
def pyIsSpace (c : Char) : Bool := decide (c ∈ pySpaceChars)

/-- Python `str.strip()`: drop leading and trailing whitespace. -/
def pyStrip (l : List Char) : List Char :=
  ((l.dropWhile pyIsSpace).reverse.dropWhile pyIsSpace).reverse

/-- Python `text.split(',')`.  Always returns at least one part. -/
def pySplitComma : List Char → List (List Char)
  | [] => [[]]
  | c :: cs =>
    if c = ',' then [] :: pySplitComma cs
    else
      match pySplitComma cs with
      | [] => [[c]]
      | p :: ps => (c :: p) :: ps

/-- Python `sep.join(parts)`. -/
def joinWith (sep : List Char) : List (List Char) → List Char
  | [] => []
  | [p] => p
  | p :: q :: ps => p ++ sep ++ joinWith sep (q :: ps)

/-- The separator `", "` used by the source to rejoin parts. -/
def commaSpace : List Char := [',', ' ']

/-- The sentinel string `"N/A"`. -/
def nA : List Char := ['N', '/', 'A']

/-- Python `dict.fromkeys` deduplication: keep the first occurrence of
each string, in order; `seen` accumulates the keys already emitted. -/
def dedupAux (seen : List (List Char)) : List (List Char) → List (List Char)
  | [] => []
  | p :: ps =>
    if p ∈ seen then dedupAux seen ps
    else p :: dedupAux (p :: seen) ps

/-- First-occurrence deduplication, as `list(dict.fromkeys(skills))`. -/
def dedupFirst (l : List (List Char)) : List (List Char) := dedupAux [] l

deriving instance DecidableEq for Except

/-- A raised Python exception (only the kind is tracked). -/
inductive PyErr where
  | attributeError
  | valueError
  | keyError
  deriving DecidableEq, Repr

/-- A pandas cell value: Python `None`, float NaN (pandas' encoding of a
missing cell), a string, or a list of strings (the `skills_list` column). -/
inductive Cell where
  | none
  | nan
  | str (s : List Char)
  | strList (l : List (List Char))
  deriving DecidableEq, Repr

/-- Negation of Python `c.isalpha()` (ASCII range), used by the trimming
loops of `clean_data`. -/
def notAlpha (c : Char) : Bool := !c.isAlpha

/-- The index-scanning core of `clean_data` (lines 12-18): strip
whitespace, then advance `start` past leading non-alphabetic characters
and retreat `end` past trailing ones; `text[start:end+1]` if
`start <= end`, else `"N/A"`.  The two scans are exactly
`dropWhile`/`dropWhile`-from-the-end. -/
def stripAlphaCore (s : List Char) : List Char :=
  if (((pyStrip s).dropWhile notAlpha).reverse.dropWhile notAlpha).reverse = [] then nA
  else (((pyStrip s).dropWhile notAlpha).reverse.dropWhile notAlpha).reverse

/-- Function `clean_data` (lines 9-18).  `if not text` is True for `None`, the
empty string and the empty list, but False for float NaN (NaN is truthy),
so a NaN cell reaches `text.strip()` and raises `AttributeError`. -/
def clean_data : Cell → Except PyErr (List Char)
  | Cell.none => Except.ok nA
  | Cell.nan => Except.error PyErr.attributeError
  | Cell.strList l =>
    if l = [] then Except.ok nA else Except.error PyErr.attributeError
  | Cell.str s =>
    if s = [] then Except.ok nA else Except.ok (stripAlphaCore s)

/-- Python `parts[-2]` for a list known to have at least two elements. -/
def partsPenult (ps : List (List Char)) : List Char := (ps.reverse.drop 1).headD []

/-- One element of `extract_city` (lines 20-31): `pd.isna` sends missing
values to `"N/A"`; a string containing a comma is split and
`parts[-2].strip()` is taken when `len(parts) > 1`; anything else gives
`"N/A"`.  Truth-testing `pd.isna` of a list raises. -/
def extract_city_one : Cell → Except PyErr (List Char)
  | Cell.none => Except.ok nA
  | Cell.nan => Except.ok nA
  | Cell.strList _ => Except.error PyErr.valueError
  | Cell.str loc =>
    if ',' ∈ loc then
      Except.ok
        (if 1 < (pySplitComma loc).length then pyStrip (partsPenult (pySplitComma loc))
         else nA)
    else Except.ok nA

/-- One element of `extract_country` (lines 33-49), returning the pair
(updated location, country): a missing value gives `("N/A", "N/A")`; a
string with a comma gives `(', '.join(parts[:-1]).strip(), parts[-1].strip())`;
a string without a comma is kept unchanged with country `"N/A"`. -/
def extract_country_one : Cell → Except PyErr (List Char × List Char)
  | Cell.none => Except.ok (nA, nA)
  | Cell.nan => Except.ok (nA, nA)
  | Cell.strList _ => Except.error PyErr.valueError
  | Cell.str loc =>
    if ',' ∈ loc then
      Except.ok (pyStrip (joinWith commaSpace (pySplitComma loc).dropLast),
                 pyStrip ((pySplitComma loc).getLastD []))
    else Except.ok (loc, nA)

/-- The fixed list `job_type_keywords` (line 51). -/
def job_type_keywords : List (List Char) :=
  ["Full Time".toList, "Part Time".toList, "Freelance".toList, "Remote".toList,
   "On-site".toList, "Hybrid".toList, "Internship".toList, "Shift Based".toList]

/-- The split/strip/keyword-filter performed by `clean_skills` (lines 56-57). -/
def filteredParts (t : List Char) : List (List Char) :=
  ((pySplitComma t).map pyStrip).filter (fun p => decide (p ∉ job_type_keywords))

/-- Function `clean_skills` (lines 53-58). -/
def clean_skills : Cell → Except PyErr (List Char)
  | Cell.none => Except.ok nA
  | Cell.nan => Except.ok nA
  | Cell.strList _ => Except.error PyErr.valueError
  | Cell.str t =>
    Except.ok (if filteredParts t = [] then nA else joinWith commaSpace (filteredParts t))

/-- Function `clean_and_deduplicate_skills` (lines 60-65). -/
def clean_and_deduplicate_skills : Cell → Except PyErr (List Char)
  | Cell.none => Except.ok nA
  | Cell.nan => Except.ok nA
  | Cell.strList _ => Except.error PyErr.valueError
  | Cell.str t =>
    let u := dedupFirst ((pySplitComma t).map pyStrip)
    Except.ok (if u = [] then nA else joinWith commaSpace u)

/-- The full skills normalization applied by `load_data` (lines 90-91):
`clean_skills` followed by `clean_and_deduplicate_skills`. -/
def normalizeSkills (v : Cell) : Except PyErr (List Char) :=
  (clean_skills v).bind (fun s => clean_and_deduplicate_skills (Cell.str s))

/-- The location split of `load_data` (lines 82-84) on one cell:
`clean_data`, then `extract_city`, then `extract_country`, giving
(display location, city, country) — the spec's `split_location`. -/
def split_location (v : Cell) : Except PyErr (List Char × List Char × List Char) :=
  (clean_data v).bind (fun t =>
    (extract_city_one (Cell.str t)).bind (fun city =>
      (extract_country_one (Cell.str t)).map (fun lc => (lc.1, city, lc.2))))

/-- The skills normalization exactly as the spec's sentence describes it:
split on comma, trim each part, remove parts equal to a job-type keyword,
deduplicate survivors keeping the first occurrence, and rejoin with `", "`
(no `"N/A"` fallback is mentioned).  Used to compare against the code. -/
def specNormalizeSkills (t : List Char) : List Char :=
  joinWith commaSpace (dedupFirst (filteredParts t))

/-! ### The table pipeline of `load_data` (lines 69-107)

`read_excel` itself is not modelled: `build_table` takes the already
loaded table.  A `DataFrame` is a column-name list plus one association
list per row (pandas keeps every row aligned with the column list). -/

/-- Normalized column names (lines 72-78): strip, lowercase, replace
spaces with underscores. -/
def normColName (s : List Char) : List Char :=
  ((pyStrip s).map Char.toLower).map (fun c => if c = ' ' then '_' else c)

/-- A table row: association list from column name to cell value. -/
abbrev Row := List (List Char × Cell)

/-- A pandas DataFrame: ordered column names and ordered rows. -/
structure DataFrame where
  cols : List (List Char)
  rows : List Row
  deriving DecidableEq, Repr

def locC : List Char := "location".toList
def cityC : List Char := "city".toList
def countryC : List Char := "country".toList
def skillsC : List Char := "skills".toList
def skillsListC : List Char := "skills_list".toList
def salaryC : List Char := "salary".toList
def jobTitleC : List Char := "job_title".toList
def companyC : List Char := "company".toList

/-- Value of column `c` in a row. -/
def getVal : Row → List Char → Option Cell
  | [], _ => Option.none
  | p :: r, c => if p.1 = c then Option.some p.2 else getVal r c

/-- Value of column `c`, with pandas' missing-value default NaN. -/
def getCellD (r : Row) (c : List Char) : Cell := (getVal r c).getD Cell.nan

def hasKey : Row → List Char → Bool
  | [], _ => false
  | p :: r, c => if p.1 = c then true else hasKey r c

/-- Assign column `c` of one row: overwrite an existing column in place,
else append a new column at the end (pandas `df[c] = ...`). -/
def setVal (r : Row) (c : List Char) (v : Cell) : Row :=
  if hasKey r c then r.map (fun p => if p.1 = c then (c, v) else p)
  else r ++ [(c, v)]

/-- Assign a whole column from a positionally aligned list of values. -/
def setColVals (rows : List Row) (c : List Char) (vals : List Cell) : List Row :=
  List.zipWith (fun r v => setVal r c v) rows vals

/-- Pandas column-list bookkeeping for `df[c] = ...`. -/
def addCol (cols : List (List Char)) (c : List Char) : List (List Char) :=
  if c ∈ cols then cols else cols ++ [c]

/-- Element-wise application propagating the first raised exception, as
pandas `Series.apply`. -/
def mapME {α β : Type} (f : α → Except PyErr β) : List α → Except PyErr (List β)
  | [] => Except.ok []
  | a :: as => (f a).bind (fun b => (mapME f as).map (fun bs => b :: bs))

/-- Pandas `df[c] = df[c].apply(f)`. -/
def mapCol (rows : List Row) (c : List Char) (f : Cell → Except PyErr Cell) :
    Except PyErr (List Row) :=
  mapME (fun r => (f (getCellD r c)).map (fun v => setVal r c v)) rows

/-- Pandas `fillna('').astype(str)` on one cell (lines 93-95).  After
`clean_and_deduplicate_skills` the skills column only holds strings, so
the list case is unreachable there. -/
def fillnaAstype : Cell → List Char
  | Cell.none => []
  | Cell.nan => []
  | Cell.str s => s
  | Cell.strList _ => []

/-- Python regex split on `,\s*` (line 96): a comma and any following
whitespace is a separator, so every part after the first loses its
leading whitespace. -/
def regexSplitCommaWs (l : List Char) : List (List Char) :=
  match pySplitComma l with
  | [] => []
  | p :: ps => p :: ps.map (fun q => q.dropWhile pyIsSpace)

def cleanDataCell (v : Cell) : Except PyErr Cell := (clean_data v).map Cell.str

def cleanSkillsCell (v : Cell) : Except PyErr Cell := (clean_skills v).map Cell.str

def cleanDedupCell (v : Cell) : Except PyErr Cell :=
  (clean_and_deduplicate_skills v).map Cell.str

/-- Lines 81-87: if a `location` column exists, clean it, derive `city`,
then replace `location` and derive `country`; otherwise fill `city` and
`country` with `"N/A"`.  Returns the updated rows and column list. -/
def locStep (cols0 : List (List Char)) (rows0 : List Row) :
    Except PyErr (List Row × List (List Char)) :=
  if locC ∈ cols0 then
    (mapCol rows0 locC cleanDataCell).bind (fun rows1 =>
      (mapME (fun r => extract_city_one (getCellD r locC)) rows1).bind (fun cityVals =>
        (mapME (fun r => extract_country_one (getCellD r locC)) rows1).map (fun lcPairs =>
          let rows2 := setColVals rows1 cityC (cityVals.map Cell.str)
          let rows3 := setColVals rows2 locC (lcPairs.map (fun q => Cell.str q.1))
          let rows4 := setColVals rows3 countryC (lcPairs.map (fun q => Cell.str q.2))
          (rows4, addCol (addCol cols0 cityC) countryC))))
  else
    Except.ok
      (setColVals (setColVals rows0 cityC (List.replicate rows0.length (Cell.str nA)))
         countryC (List.replicate rows0.length (Cell.str nA)),
       addCol (addCol cols0 cityC) countryC)

/-- Lines 89-99: if a `skills` column exists, normalize it and derive
`skills_list`; otherwise default `skills_list` to empty lists. -/
def skillsStep (cols2 : List (List Char)) (rows4 : List Row) :
    Except PyErr (List Row × List (List Char)) :=
  if skillsC ∈ cols2 then
    (mapCol rows4 skillsC cleanSkillsCell).bind (fun rows5 =>
      (mapCol rows5 skillsC cleanDedupCell).map (fun rows6 =>
        (setColVals rows6 skillsListC
           (rows6.map (fun r =>
             Cell.strList (regexSplitCommaWs (fillnaAstype (getCellD r skillsC))))),
         addCol cols2 skillsListC)))
  else
    Except.ok (setColVals rows4 skillsListC (rows4.map (fun _ => Cell.strList [])),
               addCol cols2 skillsListC)

/-- Line 102 keeps a column iff it is neither `salary` nor `location`. -/
def keepColName (c : List Char) : Bool :=
  if c = salaryC then false else if c = locC then false else true

/-- Line 102 on one row. -/
def keepPair (p : List Char × Cell) : Bool := keepColName p.1

/-- Function `load_data` up to (and including) the column drop of line 102:
normalize column names, run the location and skills steps, drop the
`salary` and `location` columns when present. -/
def preprocess (df : DataFrame) : Except PyErr DataFrame :=
  (locStep (df.cols.map normColName)
      (df.rows.map (fun r => r.map (fun p => (normColName p.1, p.2))))).bind (fun s1 =>
    (skillsStep s1.2 s1.1).map (fun s2 =>
      ⟨s2.2.filter keepColName, s2.1.map (fun r => r.filter keepPair)⟩))

/-- The deduplication key of line 105: the (job_title, company) pair. -/
def rowKey (r : Row) : Option Cell × Option Cell := (getVal r jobTitleC, getVal r companyC)

/-- Pandas `drop_duplicates`: keep a row iff its key was not seen before. -/
def dropDupAux (seen : List (Option Cell × Option Cell)) : List Row → List Row
  | [] => []
  | r :: rs =>
    if rowKey r ∈ seen then dropDupAux seen rs
    else r :: dropDupAux (rowKey r :: seen) rs

def dropDupRows (rows : List Row) : List Row := dropDupAux [] rows

/-- Function `load_data` on an already loaded table (lines 72-107):
preprocessing, then `drop_duplicates(subset=['job_title', 'company'])`,
which raises `KeyError` when a subset column is missing. -/
def build_table (df : DataFrame) : Except PyErr DataFrame :=
  (preprocess df).bind (fun d =>
    if jobTitleC ∈ d.cols ∧ companyC ∈ d.cols then
      Except.ok ⟨d.cols, dropDupRows d.rows⟩
    else Except.error PyErr.keyError)

/-! ### Lemmas: splitting, joining, stripping -/

/-- Helper describing `pySplitComma` on a cons with a non-comma head. -/
def consHead (c : Char) : List (List Char) → List (List Char)
  | [] => [[c]]
  | p :: ps => (c :: p) :: ps

/-- Helper describing `pySplitComma` on an append with a comma-free head. -/
def prependHead (a : List Char) : List (List Char) → List (List Char)
  | [] => [a]
  | p :: ps => (a ++ p) :: ps

theorem pySplitComma_cons_comma (cs : List Char) :
    pySplitComma (',' :: cs) = [] :: pySplitComma cs := by
  simp [pySplitComma]

theorem pySplitComma_cons_ne {c : Char} (cs : List Char) (h : ¬ c = ',') :
    pySplitComma (c :: cs) = consHead c (pySplitComma cs) := by
  rw [pySplitComma, if_neg h]
  cases pySplitComma cs <;> rfl

theorem pySplitComma_ne_nil (l : List Char) : pySplitComma l ≠ [] := by
  cases l with
  | nil => simp [pySplitComma]
  | cons c cs =>
    by_cases h : c = ','
    · subst h; rw [pySplitComma_cons_comma]; simp
    · rw [pySplitComma_cons_ne cs h]; cases pySplitComma cs <;> simp [consHead]

theorem not_comma_mem_pySplitComma {l : List Char} :
    ∀ p ∈ pySplitComma l, ',' ∉ p := by
  induction l with
  | nil =>
    intro p hp
    simp [pySplitComma] at hp
    simp [hp]
  | cons c cs ih =>
    by_cases h : c = ','
    · subst h
      rw [pySplitComma_cons_comma]
      intro p hp
      rcases List.mem_cons.mp hp with h1 | h1
      · simp [h1]
      · exact ih p h1
    · rw [pySplitComma_cons_ne cs h]
      cases hs : pySplitComma cs with
      | nil => exact absurd hs (pySplitComma_ne_nil cs)
      | cons q qs =>
        intro p hp
        rcases List.mem_cons.mp hp with h1 | h1
        · subst h1
          intro hc
          rcases List.mem_cons.mp hc with h2 | h2
          · exact h h2.symm
          · exact ih q (hs ▸ List.mem_cons_self q qs) h2
        · exact ih p (hs ▸ List.mem_cons_of_mem q h1)

theorem pySplitComma_append {a : List Char} (b : List Char) (h : ',' ∉ a) :
    pySplitComma (a ++ b) = prependHead a (pySplitComma b) := by
  induction a with
  | nil =>
    cases hb : pySplitComma b with
    | nil => exact absurd hb (pySplitComma_ne_nil b)
    | cons p ps => simp [prependHead, hb]
  | cons c a ih =>
    have hc : ¬ c = ',' := fun hc => h (hc ▸ List.mem_cons_self c a)
    have ha : ',' ∉ a := fun hm => h (List.mem_cons_of_mem c hm)
    rw [List.cons_append, pySplitComma_cons_ne _ hc, ih ha]
    cases hb : pySplitComma b with
    | nil => exact absurd hb (pySplitComma_ne_nil b)
    | cons p ps => simp [prependHead, consHead]

theorem pySplitComma_no_comma {a : List Char} (h : ',' ∉ a) :
    pySplitComma a = [a] := by
  have := pySplitComma_append [] h
  simpa [pySplitComma, prependHead] using this

/-- Splitting a `", "`-join of comma-free parts recovers the parts, each
part after the first carrying the extra space from the separator. -/
theorem pySplitComma_joinWith (p : List Char) (ps : List (List Char))
    (h : ∀ x ∈ p :: ps, ',' ∉ x) :
    pySplitComma (joinWith commaSpace (p :: ps)) = p :: ps.map (fun q => ' ' :: q) := by
  induction ps generalizing p with
  | nil => simp [joinWith, pySplitComma_no_comma (h p (List.mem_cons_self p []))]
  | cons q ps ih =>
    have hp : ',' ∉ p := h p (List.mem_cons_self p _)
    have hrest : ∀ x ∈ q :: ps, ',' ∉ x := fun x hx => h x (List.mem_cons_of_mem p hx)
    have hjoin : joinWith commaSpace (p :: q :: ps) =
        p ++ (',' :: ' ' :: joinWith commaSpace (q :: ps)) := by
      simp [joinWith, commaSpace]
    rw [hjoin, pySplitComma_append _ hp, pySplitComma_cons_comma,
        pySplitComma_cons_ne _ (by decide), ih q hrest]
    simp [prependHead, consHead]

theorem dropWhile_self (p : Char → Bool) (l : List Char) :
    (l.dropWhile p).dropWhile p = l.dropWhile p := by
  induction l with
  | nil => rfl
  | cons c cs ih =>
    by_cases h : p c
    · simp [List.dropWhile_cons, h, ih]
    · simp [List.dropWhile_cons, h]

theorem head_dropWhile_false {p : Char → Bool} {l : List Char} {c : Char}
    {cs : List Char} (h : l.dropWhile p = c :: cs) : p c = false := by
  induction l generalizing c cs with
  | nil => simp [List.dropWhile] at h
  | cons a as ih =>
    by_cases ha : p a
    · exact ih (by simpa [List.dropWhile_cons, ha] using h)
    · rw [List.dropWhile_cons, if_neg ha] at h
      cases h
      simpa using ha

theorem dropWhile_eq_self_of_head {p : Char → Bool} {c : Char} {t : List Char}
    (h : p c = false) : (c :: t).dropWhile p = c :: t := by
  simp [List.dropWhile_cons, h]

theorem pyStrip_cons_space (l : List Char) : pyStrip (' ' :: l) = pyStrip l := by
  simp [pyStrip, List.dropWhile_cons, show pyIsSpace ' ' = true by decide]

/-- Decomposition of the tail-trim: a list is its back-trimmed part
followed by a block of characters satisfying the predicate. -/
theorem dropWhile_reverse_decomp (p : Char → Bool) (a : List Char) :
    ∃ w, a = (a.reverse.dropWhile p).reverse ++ w ∧ ∀ c ∈ w, p c = true := by
  refine ⟨(a.reverse.takeWhile p).reverse, ?_, ?_⟩
  · have h := List.takeWhile_append_dropWhile (p := p) (l := a.reverse)
    have h2 := congrArg List.reverse h
    rw [List.reverse_append, List.reverse_reverse] at h2
    exact h2.symm
  · intro c hc
    rw [List.mem_reverse] at hc
    exact List.mem_takeWhile_imp hc

theorem mem_of_mem_dropWhile {p : Char → Bool} {c : Char} {l : List Char}
    (h : c ∈ l.dropWhile p) : c ∈ l := by
  induction l with
  | nil => simp [List.dropWhile] at h
  | cons a as ih =>
    by_cases ha : p a
    · exact List.mem_cons_of_mem a (ih (by simpa [List.dropWhile_cons, ha] using h))
    · simpa [List.dropWhile_cons, ha] using h

theorem mem_dropWhile_of_false {p : Char → Bool} {c : Char} {l : List Char}
    (hm : c ∈ l) (hc : p c = false) : c ∈ l.dropWhile p := by
  induction l with
  | nil => simp at hm
  | cons a as ih =>
    by_cases ha : p a
    · rcases List.mem_cons.mp hm with h1 | h1
      · subst h1; rw [ha] at hc; cases hc
      · simpa [List.dropWhile_cons, ha] using ih h1
    · simpa [List.dropWhile_cons, ha] using hm

theorem mem_of_mem_pyStrip {c : Char} {l : List Char} (h : c ∈ pyStrip l) : c ∈ l := by
  rw [pyStrip, List.mem_reverse] at h
  have h2 := mem_of_mem_dropWhile h
  rw [List.mem_reverse] at h2
  exact mem_of_mem_dropWhile h2

theorem mem_pyStrip_of_false {c : Char} {l : List Char}
    (hm : c ∈ l) (hc : pyIsSpace c = false) : c ∈ pyStrip l := by
  rw [pyStrip, List.mem_reverse]
  apply mem_dropWhile_of_false _ hc
  rw [List.mem_reverse]
  exact mem_dropWhile_of_false hm hc

theorem dropWhile_eq_self_of_decomp {p : Char → Bool} {m w a : List Char}
    (hd : a.dropWhile p = a) (hsplit : a = m ++ w) : m.dropWhile p = m := by
  cases m with
  | nil => rfl
  | cons c t =>
    have hc : p c = false := by
      by_cases h : p c
      · rw [hsplit, List.cons_append, List.dropWhile_cons, if_pos h] at hd
        have hle := (List.dropWhile_sublist (l := t ++ w) p).length_le
        rw [hd] at hle
        simp at hle
      · simpa using h
    exact dropWhile_eq_self_of_head hc

theorem pyStrip_idem (l : List Char) : pyStrip (pyStrip l) = pyStrip l := by
  have ha : (l.dropWhile pyIsSpace).dropWhile pyIsSpace = l.dropWhile pyIsSpace :=
    dropWhile_self pyIsSpace l
  obtain ⟨w, hw, _⟩ := dropWhile_reverse_decomp pyIsSpace (l.dropWhile pyIsSpace)
  have h1 : (pyStrip l).dropWhile pyIsSpace = pyStrip l :=
    dropWhile_eq_self_of_decomp ha hw
  have h2 : (pyStrip l).reverse.dropWhile pyIsSpace = (pyStrip l).reverse := by
    rw [pyStrip, List.reverse_reverse]
    exact dropWhile_self pyIsSpace _
  rw [pyStrip, h1]
  show ((pyStrip l).reverse.dropWhile pyIsSpace).reverse = pyStrip l
  rw [h2, List.reverse_reverse]

theorem not_comma_pyStrip {l : List Char} (h : ',' ∉ l) : ',' ∉ pyStrip l :=
  fun hm => h (mem_of_mem_pyStrip hm)

/-- Stripping the split of a `", "`-join of comma-free parts yields the
stripped parts. -/
theorem map_pyStrip_split_join (p : List Char) (ps : List (List Char))
    (h : ∀ x ∈ p :: ps, ',' ∉ x) :
    (pySplitComma (joinWith commaSpace (p :: ps))).map pyStrip =
      (p :: ps).map pyStrip := by
  rw [pySplitComma_joinWith p ps h]
  simp [List.map_map, Function.comp_def, pyStrip_cons_space]

/-! ### Lemmas: deduplication -/

theorem mem_dedupAux {seen : List (List Char)} {l : List (List Char)} {p : List Char}
    (h : p ∈ dedupAux seen l) : p ∈ l ∧ p ∉ seen := by
  induction l generalizing seen with
  | nil => simp [dedupAux] at h
  | cons q l ih =>
    by_cases hq : q ∈ seen
    · rw [dedupAux, if_pos hq] at h
      obtain ⟨h1, h2⟩ := ih h
      exact ⟨List.mem_cons_of_mem q h1, h2⟩
    · rw [dedupAux, if_neg hq] at h
      rcases List.mem_cons.mp h with h1 | h1
      · exact ⟨h1 ▸ List.mem_cons_self q l, h1 ▸ hq⟩
      · obtain ⟨h1', h2⟩ := ih h1
        exact ⟨List.mem_cons_of_mem q h1',
               fun hm => h2 (List.mem_cons_of_mem q hm)⟩

theorem dedupAux_nodup (seen : List (List Char)) (l : List (List Char)) :
    (dedupAux seen l).Nodup := by
  induction l generalizing seen with
  | nil => simp [dedupAux]
  | cons q l ih =>
    by_cases hq : q ∈ seen
    · rw [dedupAux, if_pos hq]; exact ih seen
    · rw [dedupAux, if_neg hq]
      refine List.nodup_cons.mpr ⟨?_, ih (q :: seen)⟩
      intro hm
      exact (mem_dedupAux hm).2 (List.mem_cons_self q seen)

theorem dedupAux_eq_self {seen : List (List Char)} {l : List (List Char)}
    (hn : l.Nodup) (hs : ∀ x ∈ l, x ∉ seen) : dedupAux seen l = l := by
  induction l generalizing seen with
  | nil => rfl
  | cons q l ih =>
    have hq : q ∉ seen := hs q (List.mem_cons_self q l)
    rw [dedupAux, if_neg hq]
    congr 1
    apply ih (List.nodup_cons.mp hn).2
    intro x hx
    intro hin
    rcases List.mem_cons.mp hin with h1 | h1
    · exact (List.nodup_cons.mp hn).1 (h1 ▸ hx)
    · exact hs x (List.mem_cons_of_mem q hx) h1

theorem dedupFirst_idem (l : List (List Char)) :
    dedupFirst (dedupFirst l) = dedupFirst l :=
  dedupAux_eq_self (dedupAux_nodup [] l) (fun _ _ => List.not_mem_nil _)

theorem mem_dedupFirst {l : List (List Char)} {p : List Char}
    (h : p ∈ dedupFirst l) : p ∈ l := (mem_dedupAux h).1

theorem dedupFirst_ne_nil {l : List (List Char)} (h : l ≠ []) :
    dedupFirst l ≠ [] := by
  cases l with
  | nil => exact absurd rfl h
  | cons q l =>
    rw [dedupFirst, dedupAux, if_neg (List.not_mem_nil q)]
    simp

/-! ### Lemmas: the skills normalization -/

theorem filteredParts_props {t : List Char} :
    ∀ p ∈ filteredParts t, pyStrip p = p ∧ ',' ∉ p ∧ p ∉ job_type_keywords := by
  intro p hp
  rw [filteredParts, List.mem_filter] at hp
  obtain ⟨hmem, hkw⟩ := hp
  obtain ⟨q, hq, rfl⟩ := List.mem_map.mp hmem
  exact ⟨pyStrip_idem q, not_comma_pyStrip (not_comma_mem_pySplitComma q hq),
         of_decide_eq_true hkw⟩

theorem filteredParts_join {ps : List (List Char)} (hne : ps ≠ [])
    (h : ∀ p ∈ ps, pyStrip p = p ∧ ',' ∉ p ∧ p ∉ job_type_keywords) :
    filteredParts (joinWith commaSpace ps) = ps := by
  cases ps with
  | nil => exact absurd rfl hne
  | cons p pt =>
    rw [filteredParts,
        map_pyStrip_split_join p pt (fun x hx => (h x hx).2.1)]
    have hmap : (p :: pt).map pyStrip = p :: pt :=
      (List.map_congr_left (fun x hx => (h x hx).1)).trans (List.map_id _)
    rw [hmap]
    apply List.filter_eq_self.mpr
    intro a ha
    exact decide_eq_true (h a ha).2.2

theorem clean_dedup_join {ps : List (List Char)} (hne : ps ≠ [])
    (h : ∀ p ∈ ps, pyStrip p = p ∧ ',' ∉ p) :
    clean_and_deduplicate_skills (Cell.str (joinWith commaSpace ps)) =
      Except.ok (joinWith commaSpace (dedupFirst ps)) := by
  cases ps with
  | nil => exact absurd rfl hne
  | cons p pt =>
    rw [clean_and_deduplicate_skills,
        map_pyStrip_split_join p pt (fun x hx => (h x hx).2)]
    have hmap : (p :: pt).map pyStrip = p :: pt :=
      (List.map_congr_left (fun x hx => (h x hx).1)).trans (List.map_id _)
    rw [hmap, if_neg (dedupFirst_ne_nil (by simp))]

theorem clean_skills_join {ps : List (List Char)} (hne : ps ≠ [])
    (h : ∀ p ∈ ps, pyStrip p = p ∧ ',' ∉ p ∧ p ∉ job_type_keywords) :
    clean_skills (Cell.str (joinWith commaSpace ps)) =
      Except.ok (joinWith commaSpace ps) := by
  rw [clean_skills, filteredParts_join hne h, if_neg hne]

theorem normalizeSkills_eq {t : List Char} (h : filteredParts t ≠ []) :
    normalizeSkills (Cell.str t) =
      Except.ok (joinWith commaSpace (dedupFirst (filteredParts t))) := by
  have h1 : clean_skills (Cell.str t) =
      Except.ok (joinWith commaSpace (filteredParts t)) := by
    rw [clean_skills, if_neg h]
  rw [normalizeSkills, h1]
  exact clean_dedup_join h (fun p hp => ⟨(filteredParts_props p hp).1,
    (filteredParts_props p hp).2.1⟩)

/-! ### Concrete tables used as witnesses -/

/-- A table whose single location cell is NaN (a missing spreadsheet cell). -/
def wuzDf7 : DataFrame :=
  ⟨[jobTitleC, companyC, locC],
   [[(jobTitleC, Cell.str "Dev".toList), (companyC, Cell.str "Acme".toList),
     (locC, Cell.nan)]]⟩

/-! ### The claims -/

/-- Claim C1 (amended).  For every skills string in which at least one
comma-separated part survives the job-type keyword filter, the full
normalization `clean_and_deduplicate_skills ∘ clean_skills` returns
exactly the spec's description: split on comma, trim, drop keyword
parts, deduplicate keeping first occurrences, rejoin with `", "`.  (The
amendment: when no part survives the filter the code returns the
sentinel `"N/A"`, not the empty rejoin `""`.) -/
theorem claim_C1 (t : List Char) (h : filteredParts t ≠ []) :
    normalizeSkills (Cell.str t) = Except.ok (specNormalizeSkills t) := by
  rw [normalizeSkills_eq h]; rfl

/-- Claim C1, counterexample to the unamended claim: on
`"Full Time, Remote"` every part is a job-type keyword, the spec's
described rejoin is `""`, but the code returns `"N/A"`. -/
theorem claim_C1_counterexample :
    normalizeSkills (Cell.str ("Full Time, Remote".toList)) ≠
      Except.ok (specNormalizeSkills ("Full Time, Remote".toList)) := by decide

/-- Claim C1, witness: the claim's own example
`normalize_skills("Python, Full Time, Python, SQL") = "Python, SQL"`. -/
theorem claim_C1_witness :
    filteredParts ("Python, Full Time, Python, SQL".toList) ≠ [] ∧
    normalizeSkills (Cell.str ("Python, Full Time, Python, SQL".toList)) =
      Except.ok ("Python, SQL".toList) :=
  ⟨by decide, (claim_C1 _ (by decide)).trans (by decide)⟩

theorem one_lt_length_pySplitComma {s : List Char} (h : ',' ∈ s) :
    1 < (pySplitComma s).length := by
  induction s with
  | nil => simp at h
  | cons c cs ih =>
    by_cases hc : c = ','
    · subst hc
      rw [pySplitComma_cons_comma]
      have := List.length_pos.mpr (pySplitComma_ne_nil cs)
      simp
      omega
    · have hm : ',' ∈ cs := by
        rcases List.mem_cons.mp h with h1 | h1
        · exact absurd h1.symm hc
        · exact h1
      rw [pySplitComma_cons_ne cs hc]
      cases hs : pySplitComma cs with
      | nil => exact absurd hs (pySplitComma_ne_nil cs)
      | cons p pt =>
        have := ih hm
        rw [hs] at this
        simp at this
        simp [consHead]
        omega

/-- Claim C2 (amended).  For every normalized location string containing
a comma, `split_location` returns display location
`', '.join(parts[:-1]).strip()` — the comma-separated parts except the
last, each keeping its original surrounding whitespace, rejoined with
`", "` and trimmed only at the two ends — together with
city `parts[-2].strip()` and country `parts[-1].strip()`. -/
theorem claim_C2 (s : List Char) (h : clean_data (Cell.str s) = Except.ok s)
    (hc : ',' ∈ s) :
    split_location (Cell.str s) = Except.ok
      (pyStrip (joinWith commaSpace (pySplitComma s).dropLast),
       pyStrip (partsPenult (pySplitComma s)),
       pyStrip ((pySplitComma s).getLastD [])) := by
  have hlen := one_lt_length_pySplitComma hc
  rw [split_location, h]
  show (extract_city_one (Cell.str s)).bind _ = _
  rw [extract_city_one]
  simp only [if_pos hc, if_pos hlen]
  show (extract_country_one (Cell.str s)).map _ = _
  rw [extract_country_one]
  simp [if_pos hc, Except.map]

/-- Claim C2, counterexample to the claim's example: the parts joined by
`', '.join(parts[:-1])` keep their leading space, so the display
location for `"Maadi, Cairo, Egypt"` is `"Maadi,  Cairo"` (two spaces),
not `"Maadi, Cairo"`. -/
theorem claim_C2_counterexample :
    split_location (Cell.str ("Maadi, Cairo, Egypt".toList)) ≠
      Except.ok ("Maadi, Cairo".toList, "Cairo".toList, "Egypt".toList) := by decide

/-- Claim C2, witness: the amended example, with the double space. -/
theorem claim_C2_witness :
    clean_data (Cell.str ("Maadi, Cairo, Egypt".toList)) =
      Except.ok ("Maadi, Cairo, Egypt".toList) ∧
    ',' ∈ ("Maadi, Cairo, Egypt".toList) ∧
    split_location (Cell.str ("Maadi, Cairo, Egypt".toList)) =
      Except.ok ("Maadi,  Cairo".toList, "Cairo".toList, "Egypt".toList) :=
  ⟨by decide, by decide, (claim_C2 _ (by decide) (by decide)).trans (by decide)⟩

/-- Claim C7.  A Python `None` location is mapped to the
`("N/A", "N/A", "N/A")` triple, but pandas encodes an absent spreadsheet
cell as float NaN, which is truthy, so `clean_data`'s `if not text`
guard misses it, `text.strip()` raises `AttributeError`, and `load_data`
propagates the exception instead of producing the sentinel triple. -/
theorem claim_C7 :
    split_location Cell.none = Except.ok (nA, nA, nA) ∧
    split_location Cell.nan = Except.error PyErr.attributeError ∧
    build_table wuzDf7 = Except.error PyErr.attributeError := by decide

/-- Claim C8.  The full skills normalization is idempotent: re-running
`clean_skills` then `clean_and_deduplicate_skills` on any successful
output reproduces it, and errors are preserved. -/
theorem claim_C8 (v : Cell) :
    (normalizeSkills v).bind (fun s => normalizeSkills (Cell.str s)) =
      normalizeSkills v := by
  cases v with
  | none => decide
  | nan => decide
  | strList l => rfl
  | str t =>
    by_cases h : filteredParts t = []
    · have h1 : clean_skills (Cell.str t) = Except.ok nA := by
        rw [clean_skills, if_pos h]
      rw [normalizeSkills, h1]
      decide
    · rw [normalizeSkills_eq h]
      have hqne : dedupFirst (filteredParts t) ≠ [] := dedupFirst_ne_nil h
      have hprops : ∀ p ∈ dedupFirst (filteredParts t),
          pyStrip p = p ∧ ',' ∉ p ∧ p ∉ job_type_keywords :=
        fun p hp => filteredParts_props p (mem_dedupFirst hp)
      show normalizeSkills (Cell.str (joinWith commaSpace (dedupFirst (filteredParts t)))) = _
      rw [normalizeSkills, clean_skills_join hqne hprops]
      show clean_and_deduplicate_skills
          (Cell.str (joinWith commaSpace (dedupFirst (filteredParts t)))) = _
      rw [clean_dedup_join hqne (fun p hp => ⟨(hprops p hp).1, (hprops p hp).2.1⟩),
          dedupFirst_idem]

theorem alpha_not_space {c : Char} (h : c.isAlpha = true) : pyIsSpace c = false := by
  cases hsp : pyIsSpace c with
  | false => rfl
  | true =>
    have hm : c ∈ pySpaceChars := of_decide_eq_true (by rw [pyIsSpace] at hsp; exact hsp)
    fin_cases hm <;> exact absurd h (by decide)

/-- Claim C3.  For a string with at least one alphabetic character,
`clean_data` succeeds and its result `t` decomposes `pyStrip s` as
`u ++ t ++ w` with `u` and `w` wholly non-alphabetic and `t` beginning
and ending with an alphabetic character — i.e. `t` is the contiguous
substring of `s.strip()` between (and including) its first and last
alphabetic characters, internal characters untouched. -/
theorem claim_C3 (s : List Char) (h : ∃ c, c ∈ s ∧ c.isAlpha = true) :
    ∃ t u w, clean_data (Cell.str s) = Except.ok t ∧
      pyStrip s = u ++ t ++ w ∧
      (∀ c ∈ u, c.isAlpha = false) ∧ (∀ c ∈ w, c.isAlpha = false) ∧
      (∃ c ts, t = c :: ts ∧ c.isAlpha = true) ∧
      (∃ c ti, t = ti ++ [c] ∧ c.isAlpha = true) := by
  obtain ⟨c0, hc0s, hc0a⟩ := h
  have hs_ne : ¬ s = [] := by
    intro e
    rw [e] at hc0s
    exact List.not_mem_nil c0 hc0s
  have hc0na : notAlpha c0 = false := by simp [notAlpha, hc0a]
  have hc0strip : c0 ∈ pyStrip s := mem_pyStrip_of_false hc0s (alpha_not_space hc0a)
  have hc0t1 : c0 ∈ (pyStrip s).dropWhile notAlpha :=
    mem_dropWhile_of_false hc0strip hc0na
  obtain ⟨w, hw, hwp⟩ := dropWhile_reverse_decomp notAlpha ((pyStrip s).dropWhile notAlpha)
  have hc0t2 : c0 ∈ ((((pyStrip s).dropWhile notAlpha).reverse.dropWhile notAlpha)).reverse := by
    rw [List.mem_reverse]
    apply mem_dropWhile_of_false _ hc0na
    rw [List.mem_reverse]
    exact hc0t1
  have ht2ne : ((((pyStrip s).dropWhile notAlpha).reverse.dropWhile notAlpha)).reverse ≠ [] :=
    List.ne_nil_of_mem hc0t2
  refine ⟨((((pyStrip s).dropWhile notAlpha).reverse.dropWhile notAlpha)).reverse,
    (pyStrip s).takeWhile notAlpha, w, ?_, ?_, ?_, ?_, ?_, ?_⟩
  · show (if s = [] then Except.ok nA else Except.ok (stripAlphaCore s)) = _
    rw [if_neg hs_ne, stripAlphaCore, if_neg ht2ne]
  · conv_lhs => rw [← List.takeWhile_append_dropWhile (p := notAlpha) (l := pyStrip s), hw]
    rw [List.append_assoc]
  · intro c hc
    have := List.mem_takeWhile_imp hc
    simpa [notAlpha] using this
  · intro c hc
    have := hwp c hc
    simpa [notAlpha] using this
  · cases ht2 : ((((pyStrip s).dropWhile notAlpha).reverse.dropWhile notAlpha)).reverse with
    | nil => exact absurd ht2 ht2ne
    | cons y ys =>
      refine ⟨y, ys, rfl, ?_⟩
      rw [ht2] at hw
      have : (pyStrip s).dropWhile notAlpha = y :: (ys ++ w) := by
        rw [hw, List.cons_append]
      have hna := head_dropWhile_false this
      simpa [notAlpha] using hna
  · cases hd : (((pyStrip s).dropWhile notAlpha).reverse.dropWhile notAlpha) with
    | nil =>
      rw [hd] at ht2ne
      simp at ht2ne
    | cons z zs =>
      refine ⟨z, zs.reverse, by simp, ?_⟩
      have hna := head_dropWhile_false hd
      simpa [notAlpha] using hna

/-- Claim C3, witness at `"  12abc3!! "`. -/
theorem claim_C3_witness :
    (∃ c, c ∈ ("  12abc3!! ".toList) ∧ c.isAlpha = true) ∧
    (∃ t u w, clean_data (Cell.str ("  12abc3!! ".toList)) = Except.ok t ∧
      pyStrip ("  12abc3!! ".toList) = u ++ t ++ w ∧
      (∀ c ∈ u, c.isAlpha = false) ∧ (∀ c ∈ w, c.isAlpha = false) ∧
      (∃ c ts, t = c :: ts ∧ c.isAlpha = true) ∧
      (∃ c ti, t = ti ++ [c] ∧ c.isAlpha = true)) :=
  ⟨⟨'a', by decide, by decide⟩, claim_C3 _ ⟨'a', by decide, by decide⟩⟩

/-! ### Lemmas: rows, columns and the `Except` plumbing -/

theorem bind_ok_elim {α β : Type} {e : Except PyErr α} {f : α → Except PyErr β} {b : β}
    (h : e.bind f = Except.ok b) : ∃ a, e = Except.ok a ∧ f a = Except.ok b := by
  cases e with
  | error er => simp [Except.bind] at h
  | ok a => exact ⟨a, rfl, h⟩

theorem map_ok_elim {α β : Type} {e : Except PyErr α} {f : α → β} {b : β}
    (h : e.map f = Except.ok b) : ∃ a, e = Except.ok a ∧ f a = b := by
  cases e with
  | error er => simp [Except.map] at h
  | ok a =>
    refine ⟨a, rfl, ?_⟩
    rw [show (Except.ok a : Except PyErr α).map f = Except.ok (f a) from rfl] at h
    exact (Except.ok.injEq _ _ ▸ h)

theorem mapME_ok_mem {α β : Type} {f : α → Except PyErr β} {l : List α} {l' : List β}
    (h : mapME f l = Except.ok l') : ∀ b ∈ l', ∃ a ∈ l, f a = Except.ok b := by
  induction l generalizing l' with
  | nil =>
    rw [mapME] at h
    have hl : l' = [] := ((Except.ok.injEq _ _).mp h).symm
    subst hl
    intro b hb
    simp at hb
  | cons a as ih =>
    rw [mapME] at h
    obtain ⟨b0, h1, h2⟩ := bind_ok_elim h
    obtain ⟨bs, h3, h4⟩ := map_ok_elim h2
    intro b hb
    rw [← h4] at hb
    rcases List.mem_cons.mp hb with h5 | h5
    · exact ⟨a, List.mem_cons_self a as, h5 ▸ h1⟩
    · obtain ⟨a', ha', hfa'⟩ := ih h3 b h5
      exact ⟨a', List.mem_cons_of_mem a ha', hfa'⟩

theorem mem_zipWith {α β γ : Type} {f : α → β → γ} {l₁ : List α} {l₂ : List β} {y : γ}
    (h : y ∈ List.zipWith f l₁ l₂) : ∃ a b, a ∈ l₁ ∧ b ∈ l₂ ∧ y = f a b := by
  induction l₁ generalizing l₂ with
  | nil => simp at h
  | cons a as ih =>
    cases l₂ with
    | nil => simp at h
    | cons b bs =>
      rw [List.zipWith_cons_cons] at h
      rcases List.mem_cons.mp h with h1 | h1
      · exact ⟨a, b, List.mem_cons_self a as, List.mem_cons_self b bs, h1⟩
      · obtain ⟨a', b', ha, hb, hy⟩ := ih h1
        exact ⟨a', b', List.mem_cons_of_mem a ha, List.mem_cons_of_mem b hb, hy⟩

theorem mem_setColVals {rows : List Row} {c : List Char} {vals : List Cell} {r' : Row}
    (h : r' ∈ setColVals rows c vals) :
    ∃ r v, r ∈ rows ∧ v ∈ vals ∧ r' = setVal r c v := by
  obtain ⟨a, b, ha, hb, hy⟩ := mem_zipWith h
  exact ⟨a, b, ha, hb, hy⟩

theorem getVal_map_set {r : Row} {c : List Char} {v : Cell} (hk : hasKey r c = true) :
    getVal (r.map (fun p => if p.1 = c then (c, v) else p)) c = Option.some v := by
  induction r with
  | nil => simp [hasKey] at hk
  | cons p r ih =>
    by_cases hp : p.1 = c
    · simp [getVal, hp]
    · rw [hasKey, if_neg hp] at hk
      simp only [List.map_cons, if_neg hp]
      rw [getVal, if_neg hp]
      exact ih hk

theorem getVal_append_set {r : Row} {c : List Char} {v : Cell} (hk : hasKey r c = false) :
    getVal (r ++ [(c, v)]) c = Option.some v := by
  induction r with
  | nil => simp [getVal]
  | cons p r ih =>
    rw [hasKey] at hk
    by_cases hp : p.1 = c
    · rw [if_pos hp] at hk; cases hk
    · rw [if_neg hp] at hk
      rw [List.cons_append, getVal, if_neg hp]
      exact ih hk

theorem getVal_setVal_self (r : Row) (c : List Char) (v : Cell) :
    getVal (setVal r c v) c = Option.some v := by
  rw [setVal]
  by_cases hk : hasKey r c
  · rw [if_pos hk]; exact getVal_map_set hk
  · rw [if_neg hk]; exact getVal_append_set (Bool.of_not_eq_true hk)

theorem getVal_map_set_ne {r : Row} {c' c : List Char} {v : Cell} (h : ¬ c' = c) :
    getVal (r.map (fun p => if p.1 = c then (c, v) else p)) c' = getVal r c' := by
  induction r with
  | nil => rfl
  | cons p r ih =>
    by_cases hp : p.1 = c
    · simp only [List.map_cons, if_pos hp]
      have h1 : ¬ c = c' := fun e => h e.symm
      have h2 : ¬ p.1 = c' := by rw [hp]; exact h1
      rw [getVal, if_neg h1, getVal, if_neg h2]
      exact ih
    · simp only [List.map_cons, if_neg hp]
      rw [getVal, getVal]
      by_cases hpc : p.1 = c'
      · rw [if_pos hpc, if_pos hpc]
      · rw [if_neg hpc, if_neg hpc]
        exact ih

theorem getVal_append_ne {r : Row} {c' c : List Char} {v : Cell} (h : ¬ c' = c) :
    getVal (r ++ [(c, v)]) c' = getVal r c' := by
  induction r with
  | nil =>
    show (if c = c' then Option.some v else getVal [] c') = getVal [] c'
    rw [if_neg (fun e => h e.symm)]
  | cons p r ih =>
    rw [List.cons_append, getVal, getVal]
    by_cases hpc : p.1 = c'
    · rw [if_pos hpc, if_pos hpc]
    · rw [if_neg hpc, if_neg hpc]
      exact ih

theorem getVal_setVal_ne {c' c : List Char} (r : Row) (v : Cell) (h : ¬ c' = c) :
    getVal (setVal r c v) c' = getVal r c' := by
  rw [setVal]
  split
  · exact getVal_map_set_ne h
  · exact getVal_append_ne h

theorem getVal_filter_keep {r : Row} {c : List Char} (h : keepColName c = true) :
    getVal (r.filter keepPair) c = getVal r c := by
  induction r with
  | nil => rfl
  | cons p r ih =>
    by_cases hp : keepPair p
    · rw [List.filter_cons, if_pos (by exact hp), getVal, getVal]
      by_cases hpc : p.1 = c
      · rw [if_pos hpc, if_pos hpc]
      · rw [if_neg hpc, if_neg hpc]
        exact ih
    · have hpc : ¬ p.1 = c := by
        intro e
        exact hp (by rw [keepPair, e]; exact h)
      rw [List.filter_cons, if_neg hp, getVal, if_neg hpc]
      exact ih

theorem getVal_filter_drop {r : Row} {c : List Char} (h : keepColName c = false) :
    getVal (r.filter keepPair) c = Option.none := by
  induction r with
  | nil => rfl
  | cons p r ih =>
    by_cases hp : keepPair p
    · have hpc : ¬ p.1 = c := by
        intro e
        rw [keepPair, e, h] at hp
        simp at hp
      rw [List.filter_cons, if_pos (by exact hp), getVal, if_neg hpc]
      exact ih
    · rw [List.filter_cons, if_neg hp]
      exact ih

theorem mem_addCol_of_mem {cols : List (List Char)} {c' c : List Char} (h : c ∈ cols) :
    c ∈ addCol cols c' := by
  rw [addCol]
  split
  · exact h
  · exact List.mem_append_left _ h

theorem mem_addCol_elim {cols : List (List Char)} {c' c : List Char}
    (h : c ∈ addCol cols c') : c ∈ cols ∨ c = c' := by
  rw [addCol] at h
  split at h
  · exact Or.inl h
  · rcases List.mem_append.mp h with h1 | h1
    · exact Or.inl h1
    · simp at h1
      exact Or.inr h1

/-! ### Lemmas: row deduplication -/

theorem dropDupAux_sublist (seen : List (Option Cell × Option Cell)) (l : List Row) :
    (dropDupAux seen l).Sublist l := by
  induction l generalizing seen with
  | nil => simp [dropDupAux]
  | cons r rs ih =>
    rw [dropDupAux]
    split
    · exact (ih seen).cons r
    · exact (ih (rowKey r :: seen)).cons₂ r

theorem mem_dropDupAux {seen : List (Option Cell × Option Cell)} {l : List Row} {r : Row}
    (h : r ∈ dropDupAux seen l) : r ∈ l ∧ rowKey r ∉ seen := by
  induction l generalizing seen with
  | nil => simp [dropDupAux] at h
  | cons q rs ih =>
    rw [dropDupAux] at h
    by_cases hq : rowKey q ∈ seen
    · rw [if_pos hq] at h
      obtain ⟨h1, h2⟩ := ih h
      exact ⟨List.mem_cons_of_mem q h1, h2⟩
    · rw [if_neg hq] at h
      rcases List.mem_cons.mp h with h1 | h1
      · exact ⟨h1 ▸ List.mem_cons_self q rs, h1 ▸ hq⟩
      · obtain ⟨h1', h2⟩ := ih h1
        exact ⟨List.mem_cons_of_mem q h1',
               fun hm => h2 (List.mem_cons_of_mem _ hm)⟩

theorem pairwise_dropDupAux (seen : List (Option Cell × Option Cell)) (l : List Row) :
    (dropDupAux seen l).Pairwise (fun a b => rowKey a ≠ rowKey b) := by
  induction l generalizing seen with
  | nil => simp [dropDupAux]
  | cons q rs ih =>
    rw [dropDupAux]
    split
    · exact ih seen
    · refine List.pairwise_cons.mpr ⟨?_, ih (rowKey q :: seen)⟩
      intro b hb he
      exact (mem_dropDupAux hb).2 (he ▸ List.mem_cons_self _ _)

theorem find?_dropDupAux {seen : List (Option Cell × Option Cell)} {l : List Row} {r : Row}
    (h : r ∈ dropDupAux seen l) :
    l.find? (fun x => decide (rowKey x = rowKey r)) = some r := by
  induction l generalizing seen with
  | nil => simp [dropDupAux] at h
  | cons q rs ih =>
    rw [dropDupAux] at h
    by_cases hq : rowKey q ∈ seen
    · rw [if_pos hq] at h
      have hne : ¬ rowKey q = rowKey r :=
        fun e => (mem_dropDupAux h).2 (e ▸ hq)
      rw [List.find?_cons_of_neg _ (by simpa using hne)]
      exact ih h
    · rw [if_neg hq] at h
      rcases List.mem_cons.mp h with h1 | h1
      · subst h1
        rw [List.find?_cons_of_pos _ (by simp)]
      · have hne : ¬ rowKey q = rowKey r :=
          fun e => (mem_dropDupAux h1).2 (e ▸ List.mem_cons_self _ _)
        rw [List.find?_cons_of_neg _ (by simpa using hne)]
        exact ih h1

theorem dropDupAux_covers {seen : List (Option Cell × Option Cell)} {l : List Row} {x : Row}
    (hx : x ∈ l) :
    rowKey x ∈ seen ∨ ∃ r ∈ dropDupAux seen l, rowKey r = rowKey x := by
  induction l generalizing seen with
  | nil => simp at hx
  | cons q rs ih =>
    rw [dropDupAux]
    by_cases hq : rowKey q ∈ seen
    · rw [if_pos hq]
      rcases List.mem_cons.mp hx with h1 | h1
      · exact Or.inl (h1 ▸ hq)
      · exact ih h1
    · rw [if_neg hq]
      rcases List.mem_cons.mp hx with h1 | h1
      · exact Or.inr ⟨q, List.mem_cons_self _ _, h1 ▸ rfl⟩
      · rcases @ih (rowKey q :: seen) h1 with h2 | ⟨r, hr, he⟩
        · rcases List.mem_cons.mp h2 with h3 | h3
          · exact Or.inr ⟨q, List.mem_cons_self _ _, h3.symm⟩
          · exact Or.inl h3
        · exact Or.inr ⟨r, List.mem_cons_of_mem q hr, he⟩

theorem mem_dropDupRows {l : List Row} {r : Row} (h : r ∈ dropDupRows l) : r ∈ l :=
  (mem_dropDupAux h).1

/-! ### Lemmas: the pipeline steps -/

theorem locStep_cols {cols0 : List (List Char)} {rows0 : List Row}
    {s1 : List Row × List (List Char)} (h : locStep cols0 rows0 = Except.ok s1) :
    s1.2 = addCol (addCol cols0 cityC) countryC := by
  rw [locStep] at h
  split at h
  · obtain ⟨rows1, h1, h⟩ := bind_ok_elim h
    obtain ⟨cityVals, h2, h⟩ := bind_ok_elim h
    obtain ⟨lcPairs, h3, h4⟩ := map_ok_elim h
    rw [← h4]
  · rw [← (Except.ok.injEq _ _).mp h]

theorem locStep_mem {cols0 : List (List Char)} {rows0 : List Row}
    {s1 : List Row × List (List Char)} {r' : Row}
    (h : locStep cols0 rows0 = Except.ok s1) (hr : r' ∈ s1.1) :
    (∃ s, getVal r' cityC = Option.some (Cell.str s)) ∧
    (∃ s, getVal r' countryC = Option.some (Cell.str s)) := by
  rw [locStep] at h
  split at h
  · obtain ⟨rows1, h1, h⟩ := bind_ok_elim h
    obtain ⟨cityVals, h2, h⟩ := bind_ok_elim h
    obtain ⟨lcPairs, h3, h4⟩ := map_ok_elim h
    rw [← h4] at hr
    obtain ⟨r3, v, hr3, hv, rfl⟩ := mem_setColVals hr
    obtain ⟨q, hq, rfl⟩ := List.mem_map.mp hv
    constructor
    · rw [getVal_setVal_ne _ _ (by decide)]
      obtain ⟨r2, v2, hr2, hv2, rfl⟩ := mem_setColVals hr3
      rw [getVal_setVal_ne _ _ (by decide)]
      obtain ⟨r1, v1, hr1, hv1, rfl⟩ := mem_setColVals hr2
      obtain ⟨q1, hq1, rfl⟩ := List.mem_map.mp hv1
      rw [getVal_setVal_self]
      exact ⟨q1, rfl⟩
    · rw [getVal_setVal_self]
      exact ⟨q.2, rfl⟩
  · rw [← (Except.ok.injEq _ _).mp h] at hr
    obtain ⟨r2, v, hr2, hv, rfl⟩ := mem_setColVals hr
    have hv' : v = Cell.str nA := List.eq_of_mem_replicate hv
    subst hv'
    constructor
    · rw [getVal_setVal_ne _ _ (by decide)]
      obtain ⟨r1, v1, hr1, hv1, rfl⟩ := mem_setColVals hr2
      have hv1' : v1 = Cell.str nA := List.eq_of_mem_replicate hv1
      subst hv1'
      rw [getVal_setVal_self]
      exact ⟨nA, rfl⟩
    · rw [getVal_setVal_self]
      exact ⟨nA, rfl⟩

theorem locStep_no_loc {cols0 : List (List Char)} {rows0 : List Row}
    {s1 : List Row × List (List Char)} {r' : Row} (hn : locC ∉ cols0)
    (h : locStep cols0 rows0 = Except.ok s1) (hr : r' ∈ s1.1) :
    getVal r' cityC = Option.some (Cell.str nA) ∧
    getVal r' countryC = Option.some (Cell.str nA) := by
  rw [locStep, if_neg hn] at h
  rw [← (Except.ok.injEq _ _).mp h] at hr
  obtain ⟨r2, v, hr2, hv, rfl⟩ := mem_setColVals hr
  have hv' : v = Cell.str nA := List.eq_of_mem_replicate hv
  subst hv'
  constructor
  · rw [getVal_setVal_ne _ _ (by decide)]
    obtain ⟨r1, v1, hr1, hv1, rfl⟩ := mem_setColVals hr2
    have hv1' : v1 = Cell.str nA := List.eq_of_mem_replicate hv1
    subst hv1'
    rw [getVal_setVal_self]
  · rw [getVal_setVal_self]

theorem skillsStep_cols {cols2 : List (List Char)} {rows4 : List Row}
    {s2 : List Row × List (List Char)} (h : skillsStep cols2 rows4 = Except.ok s2) :
    s2.2 = addCol cols2 skillsListC := by
  rw [skillsStep] at h
  split at h
  · obtain ⟨rows5, h1, h⟩ := bind_ok_elim h
    obtain ⟨rows6, h2, h3⟩ := map_ok_elim h
    rw [← h3]
  · rw [← (Except.ok.injEq _ _).mp h]

theorem skillsStep_mem {cols2 : List (List Char)} {rows4 : List Row}
    {s2 : List Row × List (List Char)} {r' : Row}
    (h : skillsStep cols2 rows4 = Except.ok s2) (hr : r' ∈ s2.1) :
    ∃ r0 ∈ rows4, ∀ c, ¬ c = skillsC → ¬ c = skillsListC →
      getVal r' c = getVal r0 c := by
  rw [skillsStep] at h
  split at h
  · obtain ⟨rows5, h1, h⟩ := bind_ok_elim h
    obtain ⟨rows6, h2, h3⟩ := map_ok_elim h
    rw [← h3] at hr
    obtain ⟨r6, v, hr6, hv, rfl⟩ := mem_setColVals hr
    rw [mapCol] at h2
    obtain ⟨r5, hr5, hg⟩ := mapME_ok_mem h2 r6 hr6
    obtain ⟨v5, hv5, hr6eq⟩ := map_ok_elim hg
    rw [mapCol] at h1
    obtain ⟨r4, hr4, hg4⟩ := mapME_ok_mem h1 r5 hr5
    obtain ⟨v4, hv4, hr5eq⟩ := map_ok_elim hg4
    refine ⟨r4, hr4, fun c hc1 hc2 => ?_⟩
    rw [getVal_setVal_ne _ _ hc2, ← hr6eq, getVal_setVal_ne _ _ hc1,
        ← hr5eq, getVal_setVal_ne _ _ hc1]
  · rw [← (Except.ok.injEq _ _).mp h] at hr
    obtain ⟨r0, v, hr0, hv, rfl⟩ := mem_setColVals hr
    exact ⟨r0, hr0, fun c _ hc2 => getVal_setVal_ne _ _ hc2⟩

theorem skillsStep_no_skills {cols2 : List (List Char)} {rows4 : List Row}
    {s2 : List Row × List (List Char)} {r' : Row} (hn : skillsC ∉ cols2)
    (h : skillsStep cols2 rows4 = Except.ok s2) (hr : r' ∈ s2.1) :
    getVal r' skillsListC = Option.some (Cell.strList []) ∧
    ∃ r0 ∈ rows4, ∀ c, ¬ c = skillsListC → getVal r' c = getVal r0 c := by
  rw [skillsStep, if_neg hn] at h
  rw [← (Except.ok.injEq _ _).mp h] at hr
  obtain ⟨r0, v, hr0, hv, rfl⟩ := mem_setColVals hr
  obtain ⟨x, hx, rfl⟩ := List.mem_map.mp hv
  exact ⟨getVal_setVal_self _ _ _, r0, hr0, fun c hc => getVal_setVal_ne _ _ hc⟩

theorem preprocess_ok_elim {df d : DataFrame} (h : preprocess df = Except.ok d) :
    ∃ s1 s2, locStep (df.cols.map normColName)
        (df.rows.map (fun r => r.map (fun p => (normColName p.1, p.2)))) = Except.ok s1 ∧
      skillsStep s1.2 s1.1 = Except.ok s2 ∧
      d = ⟨s2.2.filter keepColName, s2.1.map (fun r => r.filter keepPair)⟩ := by
  rw [preprocess] at h
  obtain ⟨s1, h1, h⟩ := bind_ok_elim h
  obtain ⟨s2, h2, h3⟩ := map_ok_elim h
  exact ⟨s1, s2, h1, h2, h3.symm⟩

theorem build_table_ok_elim {df out : DataFrame} (h : build_table df = Except.ok out) :
    ∃ d, preprocess df = Except.ok d ∧ jobTitleC ∈ d.cols ∧ companyC ∈ d.cols ∧
      out = ⟨d.cols, dropDupRows d.rows⟩ := by
  rw [build_table] at h
  obtain ⟨d, h1, h2⟩ := bind_ok_elim h
  by_cases hc : jobTitleC ∈ d.cols ∧ companyC ∈ d.cols
  · rw [if_pos hc] at h2
    exact ⟨d, h1, hc.1, hc.2, ((Except.ok.injEq _ _).mp h2).symm⟩
  · rw [if_neg hc] at h2
    simp at h2

/-! ### The table-level claims -/

/-- Claim C4.  After `build_table`, no two rows share the
(job_title, company) key; each surviving row is the first row of the
preprocessed table carrying its key; no key is discarded entirely; and
the surviving rows are a subsequence (hence in input order) of the
preprocessed rows. -/
theorem claim_C4 (df d out : DataFrame) (hpre : preprocess df = Except.ok d)
    (h : build_table df = Except.ok out) :
    out.rows.Sublist d.rows ∧
    out.rows.Pairwise (fun a b => rowKey a ≠ rowKey b) ∧
    (∀ r ∈ out.rows, d.rows.find? (fun x => decide (rowKey x = rowKey r)) = some r) ∧
    (∀ x ∈ d.rows, ∃ r ∈ out.rows, rowKey r = rowKey x) := by
  obtain ⟨d', hpre', hjt, hcomp, hout⟩ := build_table_ok_elim h
  rw [hpre] at hpre'
  have hd : d = d' := (Except.ok.injEq _ _).mp hpre'
  subst hd
  have hrows : out.rows = dropDupRows d.rows := by rw [hout]
  rw [hrows]
  refine ⟨dropDupAux_sublist [] d.rows, pairwise_dropDupAux [] d.rows, ?_, ?_⟩
  · intro r hr
    exact find?_dropDupAux hr
  · intro x hx
    rcases @dropDupAux_covers [] d.rows x hx with h1 | h2
    · simp at h1
    · exact h2

/-- Claim C5.  Every row of a successfully built table has string-valued
`city` and `country` fields; and for any location value that
`clean_data` cleans to a comma-free string (the unparseable case), both
the city and the country extractors return exactly `"N/A"`. -/
theorem claim_C5 :
    (∀ df out, build_table df = Except.ok out → ∀ r ∈ out.rows,
      (∃ s, getVal r cityC = Option.some (Cell.str s)) ∧
      (∃ s, getVal r countryC = Option.some (Cell.str s))) ∧
    (∀ v t, clean_data v = Except.ok t → ',' ∉ t →
      extract_city_one (Cell.str t) = Except.ok nA ∧
      extract_country_one (Cell.str t) = Except.ok (t, nA)) := by
  constructor
  · intro df out h r hr
    obtain ⟨d, hpre, hjt, hcomp, hout⟩ := build_table_ok_elim h
    obtain ⟨s1, s2, hloc, hsk, hd⟩ := preprocess_ok_elim hpre
    have hrows : out.rows = dropDupRows d.rows := by rw [hout]
    rw [hrows] at hr
    have hr2 : r ∈ d.rows := mem_dropDupRows hr
    rw [hd] at hr2
    obtain ⟨r7, hr7, rfl⟩ := List.mem_map.mp hr2
    obtain ⟨r0, hr0, hpres⟩ := skillsStep_mem hsk hr7
    have hc := locStep_mem hloc hr0
    constructor
    · obtain ⟨s, hs⟩ := hc.1
      refine ⟨s, ?_⟩
      rw [getVal_filter_keep (by decide), hpres cityC (by decide) (by decide), hs]
    · obtain ⟨s, hs⟩ := hc.2
      refine ⟨s, ?_⟩
      rw [getVal_filter_keep (by decide), hpres countryC (by decide) (by decide), hs]
  · intro v t _ hc
    constructor
    · rw [extract_city_one, if_neg hc]
    · rw [extract_country_one, if_neg hc]

/-- Claim C10.  A successfully built table never carries a `salary` (or
`location`) column — the drop is unconditional, independent of whether a
location column existed — while every other normalized input column
survives. -/
theorem claim_C10 (df out : DataFrame) (h : build_table df = Except.ok out) :
    salaryC ∉ out.cols ∧
    (∀ r ∈ out.rows, getVal r salaryC = Option.none ∧ getVal r locC = Option.none) ∧
    (∀ c ∈ df.cols.map normColName, ¬ c = salaryC → ¬ c = locC → c ∈ out.cols) := by
  obtain ⟨d, hpre, hjt, hcomp, hout⟩ := build_table_ok_elim h
  obtain ⟨s1, s2, hloc, hsk, hd⟩ := preprocess_ok_elim hpre
  have hcols : out.cols = s2.2.filter keepColName := by rw [hout, hd]
  have hrows : out.rows = dropDupRows (s2.1.map (fun r => r.filter keepPair)) := by
    rw [hout, hd]
  refine ⟨?_, ?_, ?_⟩
  · rw [hcols]
    intro hm
    have hk := (List.mem_filter.mp hm).2
    simp [keepColName] at hk
  · intro r hr
    rw [hrows] at hr
    obtain ⟨r7, _, rfl⟩ := List.mem_map.mp (mem_dropDupRows hr)
    exact ⟨getVal_filter_drop (by decide), getVal_filter_drop (by decide)⟩
  · intro c hc h1 h2
    rw [hcols]
    apply List.mem_filter.mpr
    refine ⟨?_, ?_⟩
    · rw [skillsStep_cols hsk]
      apply mem_addCol_of_mem
      rw [locStep_cols hloc]
      exact mem_addCol_of_mem (mem_addCol_of_mem hc)
    · rw [keepColName, if_neg h1, if_neg h2]

/-! ### Lemmas: step totality on the cells the source does not raise on -/

/-- A scalar pandas cell (not a Python list).  `read_excel` only
produces scalars; `clean_skills` raises only on list cells. -/
def scalarCell : Cell → Bool
  | Cell.strList _ => false
  | _ => true

/-- A cell on which `clean_data` succeeds: anything except float NaN
(truthy, so `.strip()` is reached and raises) and a nonempty list. -/
def cleanableCell : Cell → Bool
  | Cell.nan => false
  | Cell.strList l => decide (l = [])
  | _ => true

theorem clean_skills_scalar {v : Cell} (h : scalarCell v = true) :
    ∃ s, clean_skills v = Except.ok s := by
  cases v with
  | none => exact ⟨nA, rfl⟩
  | nan => exact ⟨nA, rfl⟩
  | str t => exact ⟨_, rfl⟩
  | strList l => simp [scalarCell] at h

theorem clean_data_cleanable {v : Cell} (h : cleanableCell v = true) :
    ∃ t, clean_data v = Except.ok t := by
  cases v with
  | none => exact ⟨nA, rfl⟩
  | nan => simp [cleanableCell] at h
  | str s =>
    by_cases hs : s = []
    · exact ⟨nA, by show (if s = [] then _ else _) = _; rw [if_pos hs]⟩
    · exact ⟨stripAlphaCore s, by show (if s = [] then _ else _) = _; rw [if_neg hs]⟩
  | strList l =>
    have hl : l = [] := of_decide_eq_true (by simpa [cleanableCell] using h)
    subst hl
    exact ⟨nA, rfl⟩

theorem extract_city_str_ok (loc : List Char) :
    ∃ v, extract_city_one (Cell.str loc) = Except.ok v := by
  by_cases hc : ',' ∈ loc
  · exact ⟨_, by show (if ',' ∈ loc then _ else _) = _; rw [if_pos hc]⟩
  · exact ⟨nA, by show (if ',' ∈ loc then _ else _) = _; rw [if_neg hc]⟩

theorem extract_country_str_ok (loc : List Char) :
    ∃ v, extract_country_one (Cell.str loc) = Except.ok v := by
  by_cases hc : ',' ∈ loc
  · exact ⟨_, by show (if ',' ∈ loc then _ else _) = _; rw [if_pos hc]⟩
  · exact ⟨(loc, nA), by show (if ',' ∈ loc then _ else _) = _; rw [if_neg hc]⟩

theorem mapME_total {α β : Type} {f : α → Except PyErr β} {l : List α}
    (h : ∀ a ∈ l, ∃ b, f a = Except.ok b) : ∃ l', mapME f l = Except.ok l' := by
  induction l with
  | nil => exact ⟨[], rfl⟩
  | cons a as ih =>
    obtain ⟨b, hb⟩ := h a (List.mem_cons_self a as)
    obtain ⟨l', hl⟩ := ih (fun x hx => h x (List.mem_cons_of_mem a hx))
    refine ⟨b :: l', ?_⟩
    rw [mapME, hb]
    show (mapME f as).map _ = _
    rw [hl]
    rfl

theorem mapCol_total {rows : List Row} {c : List Char} {f : Cell → Except PyErr Cell}
    (h : ∀ r ∈ rows, ∃ v, f (getCellD r c) = Except.ok v) :
    ∃ rows', mapCol rows c f = Except.ok rows' := by
  rw [mapCol]
  apply mapME_total
  intro r hr
  obtain ⟨v, hv⟩ := h r hr
  exact ⟨setVal r c v, by rw [hv]; rfl⟩

theorem skills_not_in_locStep_cols {cols0 : List (List Char)} {rows0 : List Row}
    {s1 : List Row × List (List Char)} (hs1 : locStep cols0 rows0 = Except.ok s1)
    (hskn : skillsC ∉ cols0) : skillsC ∉ s1.2 := by
  rw [locStep_cols hs1]
  intro hm
  rcases mem_addCol_elim hm with h1 | h1
  · rcases mem_addCol_elim h1 with h2 | h2
    · exact hskn h2
    · exact absurd h2 (by decide)
  · exact absurd h1 (by decide)

theorem skills_in_locStep_cols {cols0 : List (List Char)} {rows0 : List Row}
    {s1 : List Row × List (List Char)} (hs1 : locStep cols0 rows0 = Except.ok s1)
    (hmem : skillsC ∈ s1.2) : skillsC ∈ cols0 := by
  rw [locStep_cols hs1] at hmem
  rcases mem_addCol_elim hmem with h1 | h1
  · rcases mem_addCol_elim h1 with h2 | h2
    · exact h2
    · exact absurd h2 (by decide)
  · exact absurd h1 (by decide)

theorem build_table_ok_of_steps {df : DataFrame} {s1 s2 : List Row × List (List Char)}
    (hjt : jobTitleC ∈ df.cols.map normColName)
    (hcomp : companyC ∈ df.cols.map normColName)
    (hs1 : locStep (df.cols.map normColName)
      (df.rows.map (fun r => r.map (fun p => (normColName p.1, p.2)))) = Except.ok s1)
    (hs2 : skillsStep s1.2 s1.1 = Except.ok s2) :
    build_table df = Except.ok
      ⟨s2.2.filter keepColName,
       dropDupRows (s2.1.map (fun r => r.filter keepPair))⟩ := by
  have hpre : preprocess df = Except.ok
      ⟨s2.2.filter keepColName, s2.1.map (fun r => r.filter keepPair)⟩ := by
    rw [preprocess, hs1]
    show (skillsStep s1.2 s1.1).map _ = _
    rw [hs2]
    rfl
  have hjt2 : jobTitleC ∈ s2.2.filter keepColName :=
    List.mem_filter.mpr ⟨by
      rw [skillsStep_cols hs2]
      exact mem_addCol_of_mem (by
        rw [locStep_cols hs1]
        exact mem_addCol_of_mem (mem_addCol_of_mem hjt)), by decide⟩
  have hcomp2 : companyC ∈ s2.2.filter keepColName :=
    List.mem_filter.mpr ⟨by
      rw [skillsStep_cols hs2]
      exact mem_addCol_of_mem (by
        rw [locStep_cols hs1]
        exact mem_addCol_of_mem (mem_addCol_of_mem hcomp)), by decide⟩
  rw [build_table, hpre]
  show (if _ ∧ _ then _ else _) = _
  rw [if_pos ⟨hjt2, hcomp2⟩]

/-- Claim C6.  Two independent conditionals, each over every raw input
table, plus the matching no-raise guarantees.  (1) Whenever the build
succeeds and no (normalized) `location` column exists — a `skills`
column may well be present — every output row has
`city = country = "N/A"`.  (2) Whenever the build succeeds and no
`skills` column exists — a `location` column may well be present — every
output row has an empty `skills_list`.  (3) A table with `job_title` and
`company` but no `location` column always builds successfully, provided
its skills cells (if a `skills` column exists at all) are scalars, as
`read_excel` guarantees.  (4) A table with `job_title` and `company` but
no `skills` column always builds successfully, provided its location
cells (if a `location` column exists at all) are ones `clean_data`
accepts.  So a missing location or skills column itself never raises,
and the defaults are filled row by row. -/
theorem claim_C6 :
    (∀ df out, build_table df = Except.ok out →
      locC ∉ df.cols.map normColName →
      ∀ r ∈ out.rows, getVal r cityC = Option.some (Cell.str nA) ∧
        getVal r countryC = Option.some (Cell.str nA)) ∧
    (∀ df out, build_table df = Except.ok out →
      skillsC ∉ df.cols.map normColName →
      ∀ r ∈ out.rows, getVal r skillsListC = Option.some (Cell.strList [])) ∧
    (∀ df : DataFrame, jobTitleC ∈ df.cols.map normColName →
      companyC ∈ df.cols.map normColName →
      locC ∉ df.cols.map normColName →
      (skillsC ∈ df.cols.map normColName → ∀ r ∈ df.rows,
        scalarCell (getCellD (r.map (fun p => (normColName p.1, p.2))) skillsC) = true) →
      ∃ out, build_table df = Except.ok out) ∧
    (∀ df : DataFrame, jobTitleC ∈ df.cols.map normColName →
      companyC ∈ df.cols.map normColName →
      skillsC ∉ df.cols.map normColName →
      (locC ∈ df.cols.map normColName → ∀ r ∈ df.rows,
        cleanableCell (getCellD (r.map (fun p => (normColName p.1, p.2))) locC) = true) →
      ∃ out, build_table df = Except.ok out) := by
  refine ⟨?_, ?_, ?_, ?_⟩
  · intro df out h hlocn r hr
    obtain ⟨d, hpre, hjtm, hcompm, hout⟩ := build_table_ok_elim h
    obtain ⟨s1, s2, hloc, hsk, hd⟩ := preprocess_ok_elim hpre
    have hrows : out.rows = dropDupRows d.rows := by rw [hout]
    rw [hrows] at hr
    have hr2 : r ∈ d.rows := mem_dropDupRows hr
    rw [hd] at hr2
    obtain ⟨r7, hr7, rfl⟩ := List.mem_map.mp hr2
    obtain ⟨r0, hr0, hpres⟩ := skillsStep_mem hsk hr7
    have hcc := locStep_no_loc hlocn hloc hr0
    exact ⟨by rw [getVal_filter_keep (by decide), hpres cityC (by decide) (by decide), hcc.1],
           by rw [getVal_filter_keep (by decide), hpres countryC (by decide) (by decide), hcc.2]⟩
  · intro df out h hskn r hr
    obtain ⟨d, hpre, hjtm, hcompm, hout⟩ := build_table_ok_elim h
    obtain ⟨s1, s2, hloc, hsk, hd⟩ := preprocess_ok_elim hpre
    have hrows : out.rows = dropDupRows d.rows := by rw [hout]
    rw [hrows] at hr
    have hr2 : r ∈ d.rows := mem_dropDupRows hr
    rw [hd] at hr2
    obtain ⟨r7, hr7, rfl⟩ := List.mem_map.mp hr2
    have hskA : skillsC ∉ s1.2 := skills_not_in_locStep_cols hloc hskn
    obtain ⟨hsl, r0, hr0, hpres⟩ := skillsStep_no_skills hskA hsk hr7
    rw [getVal_filter_keep (by decide), hsl]
  · intro df hjt hcomp hlocn hsc
    obtain ⟨s1, hs1⟩ : ∃ s1, locStep (df.cols.map normColName)
        (df.rows.map (fun r => r.map (fun p => (normColName p.1, p.2)))) = Except.ok s1 :=
      ⟨_, by rw [locStep, if_neg hlocn]⟩
    have hs2e : ∃ s2, skillsStep s1.2 s1.1 = Except.ok s2 := by
      by_cases hsk2 : skillsC ∈ s1.2
      · have hcells := hsc (skills_in_locStep_cols hs1 hsk2)
        have hs1cells : ∀ r2 ∈ s1.1, scalarCell (getCellD r2 skillsC) = true := by
          intro r2 hr2
          have hs1' := hs1
          rw [locStep, if_neg hlocn] at hs1'
          rw [← (Except.ok.injEq _ _).mp hs1'] at hr2
          obtain ⟨ra, v2, hra, hv2, rfl⟩ := mem_setColVals hr2
          obtain ⟨rb, v1, hrb, hv1, rfl⟩ := mem_setColVals hra
          obtain ⟨rr, hrr, rfl⟩ := List.mem_map.mp hrb
          have hgd : getCellD
              (setVal (setVal (rr.map (fun p => (normColName p.1, p.2))) cityC v1)
                countryC v2) skillsC
              = getCellD (rr.map (fun p => (normColName p.1, p.2))) skillsC := by
            rw [getCellD, getCellD, getVal_setVal_ne _ _ (by decide),
                getVal_setVal_ne _ _ (by decide)]
          rw [hgd]
          exact hcells rr hrr
        obtain ⟨rows5, h5⟩ : ∃ rows5,
            mapCol s1.1 skillsC cleanSkillsCell = Except.ok rows5 :=
          mapCol_total (fun r hr => by
            obtain ⟨s, hs⟩ := clean_skills_scalar (hs1cells r hr)
            exact ⟨Cell.str s, by rw [cleanSkillsCell, hs]; rfl⟩)
        have h5cells : ∀ r5 ∈ rows5, ∃ s, getCellD r5 skillsC = Cell.str s := by
          intro r5 hr5
          rw [mapCol] at h5
          obtain ⟨ra, hra, hg⟩ := mapME_ok_mem h5 r5 hr5
          obtain ⟨vc, hvc, hset⟩ := map_ok_elim hg
          rw [cleanSkillsCell] at hvc
          obtain ⟨s, hs, hvs⟩ := map_ok_elim hvc
          refine ⟨s, ?_⟩
          rw [getCellD, ← hset, getVal_setVal_self]
          exact hvs.symm
        obtain ⟨rows6, h6⟩ : ∃ rows6,
            mapCol rows5 skillsC cleanDedupCell = Except.ok rows6 :=
          mapCol_total (fun r5 hr5 => by
            obtain ⟨s, hgs⟩ := h5cells r5 hr5
            rw [hgs]
            exact ⟨_, rfl⟩)
        refine ⟨(setColVals rows6 skillsListC
            (rows6.map (fun r =>
              Cell.strList (regexSplitCommaWs (fillnaAstype (getCellD r skillsC))))),
          addCol s1.2 skillsListC), ?_⟩
        rw [skillsStep, if_pos hsk2, h5]
        show (mapCol rows5 skillsC cleanDedupCell).map _ = _
        rw [h6]
        rfl
      · exact ⟨_, by rw [skillsStep, if_neg hsk2]⟩
    obtain ⟨s2, hs2⟩ := hs2e
    exact ⟨_, build_table_ok_of_steps hjt hcomp hs1 hs2⟩
  · intro df hjt hcomp hskn hcl
    have hs1e : ∃ s1, locStep (df.cols.map normColName)
        (df.rows.map (fun r => r.map (fun p => (normColName p.1, p.2)))) = Except.ok s1 := by
      by_cases hloc0 : locC ∈ df.cols.map normColName
      · have hcells := hcl hloc0
        obtain ⟨rows1, h1⟩ : ∃ rows1,
            mapCol (df.rows.map (fun r => r.map (fun p => (normColName p.1, p.2))))
              locC cleanDataCell = Except.ok rows1 :=
          mapCol_total (fun r hr => by
            obtain ⟨rr, hrr, rfl⟩ := List.mem_map.mp hr
            obtain ⟨t, ht⟩ := clean_data_cleanable (hcells rr hrr)
            exact ⟨Cell.str t, by rw [cleanDataCell, ht]; rfl⟩)
        have h1cells : ∀ r1 ∈ rows1, ∃ t, getCellD r1 locC = Cell.str t := by
          intro r1 hr1
          rw [mapCol] at h1
          obtain ⟨ra, hra, hg⟩ := mapME_ok_mem h1 r1 hr1
          obtain ⟨vc, hvc, hset⟩ := map_ok_elim hg
          rw [cleanDataCell] at hvc
          obtain ⟨t, ht, hvt⟩ := map_ok_elim hvc
          refine ⟨t, ?_⟩
          rw [getCellD, ← hset, getVal_setVal_self]
          exact hvt.symm
        obtain ⟨cityVals, hc⟩ : ∃ cityVals,
            mapME (fun r => extract_city_one (getCellD r locC)) rows1 =
              Except.ok cityVals :=
          mapME_total (fun r1 hr1 => by
            obtain ⟨t, ht⟩ := h1cells r1 hr1
            rw [ht]
            exact extract_city_str_ok t)
        obtain ⟨lcPairs, hlc⟩ : ∃ lcPairs,
            mapME (fun r => extract_country_one (getCellD r locC)) rows1 =
              Except.ok lcPairs :=
          mapME_total (fun r1 hr1 => by
            obtain ⟨t, ht⟩ := h1cells r1 hr1
            rw [ht]
            exact extract_country_str_ok t)
        refine ⟨(setColVals
            (setColVals (setColVals rows1 cityC (cityVals.map Cell.str)) locC
              (lcPairs.map (fun q => Cell.str q.1)))
            countryC (lcPairs.map (fun q => Cell.str q.2)),
          addCol (addCol (df.cols.map normColName) cityC) countryC), ?_⟩
        rw [locStep, if_pos hloc0, h1]
        show (mapME (fun r => extract_city_one (getCellD r locC)) rows1).bind _ = _
        rw [hc]
        show (mapME (fun r => extract_country_one (getCellD r locC)) rows1).map _ = _
        rw [hlc]
        rfl
      · exact ⟨_, by rw [locStep, if_neg hloc0]⟩
    obtain ⟨s1, hs1⟩ := hs1e
    have hskA : skillsC ∉ s1.2 := skills_not_in_locStep_cols hs1 hskn
    obtain ⟨s2, hs2⟩ : ∃ s2, skillsStep s1.2 s1.1 = Except.ok s2 :=
      ⟨_, by rw [skillsStep, if_neg hskA]⟩
    exact ⟨_, build_table_ok_of_steps hjt hcomp hs1 hs2⟩

/-! ### Witness tables and witnesses for the table-level claims -/

/-- A table with a duplicated (job_title, company) key. -/
def wuzDf4 : DataFrame :=
  ⟨[jobTitleC, companyC],
   [[(jobTitleC, Cell.str "Dev".toList), (companyC, Cell.str "Acme".toList)],
    [(jobTitleC, Cell.str "QA".toList), (companyC, Cell.str "Acme".toList)],
    [(jobTitleC, Cell.str "Dev".toList), (companyC, Cell.str "Acme".toList)]]⟩

/-- The preprocessed form of `wuzDf4` (defaults added, nothing dropped). -/
def wuzMid4 : DataFrame :=
  ⟨[jobTitleC, companyC, cityC, countryC, skillsListC],
   [[(jobTitleC, Cell.str "Dev".toList), (companyC, Cell.str "Acme".toList),
     (cityC, Cell.str nA), (countryC, Cell.str nA), (skillsListC, Cell.strList [])],
    [(jobTitleC, Cell.str "QA".toList), (companyC, Cell.str "Acme".toList),
     (cityC, Cell.str nA), (countryC, Cell.str nA), (skillsListC, Cell.strList [])],
    [(jobTitleC, Cell.str "Dev".toList), (companyC, Cell.str "Acme".toList),
     (cityC, Cell.str nA), (countryC, Cell.str nA), (skillsListC, Cell.strList [])]]⟩

/-- The built form of `wuzDf4`: the duplicate third row is gone. -/
def wuzOut4 : DataFrame :=
  ⟨[jobTitleC, companyC, cityC, countryC, skillsListC],
   [[(jobTitleC, Cell.str "Dev".toList), (companyC, Cell.str "Acme".toList),
     (cityC, Cell.str nA), (countryC, Cell.str nA), (skillsListC, Cell.strList [])],
    [(jobTitleC, Cell.str "QA".toList), (companyC, Cell.str "Acme".toList),
     (cityC, Cell.str nA), (countryC, Cell.str nA), (skillsListC, Cell.strList [])]]⟩

/-- Claim C4, witness on `wuzDf4`. -/
theorem claim_C4_witness :
    preprocess wuzDf4 = Except.ok wuzMid4 ∧ build_table wuzDf4 = Except.ok wuzOut4 ∧
    (wuzOut4.rows.Sublist wuzMid4.rows ∧
     wuzOut4.rows.Pairwise (fun a b => rowKey a ≠ rowKey b) ∧
     (∀ r ∈ wuzOut4.rows,
       wuzMid4.rows.find? (fun x => decide (rowKey x = rowKey r)) = some r) ∧
     (∀ x ∈ wuzMid4.rows, ∃ r ∈ wuzOut4.rows, rowKey r = rowKey x)) :=
  ⟨by decide, by decide, claim_C4 wuzDf4 wuzMid4 wuzOut4 (by decide) (by decide)⟩

/-- The spec's end-to-end scenario table (§8): raw column names, a
location, skills with a job-type keyword and a duplicate, and an exact
duplicate posting. -/
def wuzDf5 : DataFrame :=
  ⟨["Job Title".toList, "Company".toList, "Location".toList, "Skills".toList],
   [[("Job Title".toList, Cell.str "Dev".toList), ("Company".toList, Cell.str "Acme".toList),
     ("Location".toList, Cell.str "Giza, Cairo, Egypt".toList),
     ("Skills".toList, Cell.str "C++, Remote, C++".toList)],
    [("Job Title".toList, Cell.str "Dev".toList), ("Company".toList, Cell.str "Acme".toList),
     ("Location".toList, Cell.str "X".toList),
     ("Skills".toList, Cell.str "Go".toList)]]⟩

/-- The single row `build_table` keeps from `wuzDf5`. -/
def wuzRow5 : Row :=
  [(jobTitleC, Cell.str "Dev".toList), (companyC, Cell.str "Acme".toList),
   (skillsC, Cell.str "C++".toList), (cityC, Cell.str "Cairo".toList),
   (countryC, Cell.str "Egypt".toList), (skillsListC, Cell.strList ["C++".toList])]

/-- The built form of `wuzDf5`. -/
def wuzOut5 : DataFrame :=
  ⟨[jobTitleC, companyC, skillsC, cityC, countryC, skillsListC], [wuzRow5]⟩

/-- Claim C5, witness: the populated-fields part at `wuzDf5`, and the
unparseable-location part at the comma-free location `"Remote"`. -/
theorem claim_C5_witness :
    (build_table wuzDf5 = Except.ok wuzOut5 ∧ wuzRow5 ∈ wuzOut5.rows ∧
     ((∃ s, getVal wuzRow5 cityC = Option.some (Cell.str s)) ∧
      (∃ s, getVal wuzRow5 countryC = Option.some (Cell.str s)))) ∧
    (clean_data (Cell.str "Remote".toList) = Except.ok ("Remote".toList) ∧
     ',' ∉ ("Remote".toList) ∧
     (extract_city_one (Cell.str "Remote".toList) = Except.ok nA ∧
      extract_country_one (Cell.str "Remote".toList) = Except.ok ("Remote".toList, nA))) :=
  ⟨⟨by decide, by decide, claim_C5.1 wuzDf5 wuzOut5 (by decide) wuzRow5 (by decide)⟩,
   ⟨by decide, by decide,
    claim_C5.2 (Cell.str "Remote".toList) ("Remote".toList) (by decide) (by decide)⟩⟩

/-- A mixed partially-shaped table: a `skills` column is present but no
location-equivalent column exists. -/
def wuzDf6L : DataFrame :=
  ⟨["Job Title ".toList, "Company".toList, "Skills".toList],
   [[("Job Title ".toList, Cell.str "Dev".toList),
     ("Company".toList, Cell.str "Acme".toList),
     ("Skills".toList, Cell.str "Go, Remote".toList)]]⟩

/-- The built form of `wuzDf6L`: skills normalized, location defaults. -/
def wuzOut6L : DataFrame :=
  ⟨[jobTitleC, companyC, skillsC, cityC, countryC, skillsListC],
   [[(jobTitleC, Cell.str "Dev".toList), (companyC, Cell.str "Acme".toList),
     (skillsC, Cell.str "Go".toList), (cityC, Cell.str nA), (countryC, Cell.str nA),
     (skillsListC, Cell.strList ["Go".toList])]]⟩

/-- The other mixed partially-shaped table: a `location` column is
present but no skills-equivalent column exists. -/
def wuzDf6S : DataFrame :=
  ⟨["Job Title ".toList, "Company".toList, "Location".toList],
   [[("Job Title ".toList, Cell.str "Dev".toList),
     ("Company".toList, Cell.str "Acme".toList),
     ("Location".toList, Cell.str "Cairo, Egypt".toList)]]⟩

/-- The built form of `wuzDf6S`: location split, skills defaults. -/
def wuzOut6S : DataFrame :=
  ⟨[jobTitleC, companyC, cityC, countryC, skillsListC],
   [[(jobTitleC, Cell.str "Dev".toList), (companyC, Cell.str "Acme".toList),
     (cityC, Cell.str "Cairo".toList), (countryC, Cell.str "Egypt".toList),
     (skillsListC, Cell.strList [])]]⟩

/-- Claim C6, witness: part (1) and the location-missing totality part
(3) exercised on `wuzDf6L` (skills present, location missing); part (2)
and the skills-missing totality part (4) exercised on `wuzDf6S`
(location present, skills missing). -/
theorem claim_C6_witness :
    (build_table wuzDf6L = Except.ok wuzOut6L ∧
     locC ∉ wuzDf6L.cols.map normColName ∧
     (∀ r ∈ wuzOut6L.rows, getVal r cityC = Option.some (Cell.str nA) ∧
       getVal r countryC = Option.some (Cell.str nA))) ∧
    (build_table wuzDf6S = Except.ok wuzOut6S ∧
     skillsC ∉ wuzDf6S.cols.map normColName ∧
     (∀ r ∈ wuzOut6S.rows, getVal r skillsListC = Option.some (Cell.strList []))) ∧
    (∃ out, build_table wuzDf6L = Except.ok out) ∧
    (∃ out, build_table wuzDf6S = Except.ok out) :=
  ⟨⟨by decide, by decide, claim_C6.1 wuzDf6L wuzOut6L (by decide) (by decide)⟩,
   ⟨by decide, by decide, claim_C6.2.1 wuzDf6S wuzOut6S (by decide) (by decide)⟩,
   claim_C6.2.2.1 wuzDf6L (by decide) (by decide) (by decide) (fun _ => by decide),
   claim_C6.2.2.2 wuzDf6S (by decide) (by decide) (by decide) (fun _ => by decide)⟩

/-- A table with a `salary` column and no location-equivalent column. -/
def wuzDf10 : DataFrame :=
  ⟨[jobTitleC, companyC, salaryC],
   [[(jobTitleC, Cell.str "Dev".toList), (companyC, Cell.str "Acme".toList),
     (salaryC, Cell.str "100".toList)]]⟩

/-- The built form of `wuzDf10`: the salary column is gone. -/
def wuzOut10 : DataFrame :=
  ⟨[jobTitleC, companyC, cityC, countryC, skillsListC],
   [[(jobTitleC, Cell.str "Dev".toList), (companyC, Cell.str "Acme".toList),
     (cityC, Cell.str nA), (countryC, Cell.str nA), (skillsListC, Cell.strList [])]]⟩

/-- Claim C10, witness on `wuzDf10`. -/
theorem claim_C10_witness :
    build_table wuzDf10 = Except.ok wuzOut10 ∧
    (salaryC ∉ wuzOut10.cols ∧
     (∀ r ∈ wuzOut10.rows,
       getVal r salaryC = Option.none ∧ getVal r locC = Option.none) ∧
     (∀ c ∈ wuzDf10.cols.map normColName,
       ¬ c = salaryC → ¬ c = locC → c ∈ wuzOut10.cols)) :=
  ⟨by decide, claim_C10 wuzDf10 wuzOut10 (by decide)⟩
